import Mathlib

set_option maxRecDepth 100000

/-!
Verification of the medonet RSS aggregation pipeline
(`scripts/aggregate_medonet.py`) against its natural-language
specification.

The script is a single linear pipeline: fetch -> normalize -> dedupe ->
filter -> sort -> serialize.  We embed it shallowly:

* machine integers / timestamps become `Int`/`Nat` (epoch seconds, with
  explicit `% 2 ^ 32` inside the SHA-1 implementation);
* the feedparser entry, an open mapping of optional fields, becomes a
  record of `Option` fields (`none` models both an absent key and a
  stored `None`, the two cases the script treats identically through
  `.get`/truthiness);
* the external fetch collaborator is modelled by handing the aggregation
  run the list of already-fetched `ParsedFeed` values, one per
  configured source, in source order;
* `hashlib.sha1(...).hexdigest()` is implemented in full (UTF-8
  encoding, padding, 80-round compression, lowercase hex digest);
* wall-clock time is injected as a single `now : Int` parameter (the
  script reads the clock several times during one run; the spec and the
  claims speak of one run time);
* Python's aware-`datetime` values are modelled as an instant paired
  with a timezone tag; comparison of aware datetimes compares instants.
-/

/-! ## Configuration constants (lines 10-22 of the script) -/

def OUTPUT_FILE : String := "docs/medonet.xml"

def RETENTION_DAYS : Int := 14

def FALLBACK_IMAGE : String := "https://sm-cdn.eu/y37kjgxdy0ufdyjt.jpg"

/-- Seconds per day: `timedelta(days := n)` is `n * 86400` seconds. -/
def SECONDS_PER_DAY : Int := 86400

/-! ## UTF-8 encoding (`str.encode("utf-8")`) -/

/-- UTF-8 encoding of a single code point, as byte values. -/
def utf8EncodeChar (c : Char) : List Nat :=
  let n := c.toNat
  if n < 0x80 then [n]
  else if n < 0x800 then
    [0xC0 ||| (n >>> 6), 0x80 ||| (n &&& 0x3F)]
  else if n < 0x10000 then
    [0xE0 ||| (n >>> 12), 0x80 ||| ((n >>> 6) &&& 0x3F), 0x80 ||| (n &&& 0x3F)]
  else
    [0xF0 ||| (n >>> 18), 0x80 ||| ((n >>> 12) &&& 0x3F),
     0x80 ||| ((n >>> 6) &&& 0x3F), 0x80 ||| (n &&& 0x3F)]

/-- `s.encode("utf-8")` as a list of byte values. -/
def utf8Bytes (s : String) : List Nat :=
  s.data.flatMap utf8EncodeChar

/-! ## SHA-1 (`hashlib.sha1`), on 32-bit words represented as `Nat % 2^32` -/

/-- Truncate to a 32-bit word. -/
def w32 (n : Nat) : Nat := n % 2 ^ 32

/-- Rotate a 32-bit word left by `b` bits. -/
def rotl (b n : Nat) : Nat := w32 (n <<< b) ||| (n >>> (32 - b))

/-- SHA-1 round function `f_t(b,c,d)`. -/
def sha1F (t b c d : Nat) : Nat :=
  if t < 20 then (b &&& c) ||| ((0xFFFFFFFF ^^^ b) &&& d)
  else if t < 40 then b ^^^ c ^^^ d
  else if t < 60 then (b &&& c) ||| (b &&& d) ||| (c &&& d)
  else b ^^^ c ^^^ d

/-- SHA-1 round constant `K_t`. -/
def sha1K (t : Nat) : Nat :=
  if t < 20 then 0x5A827999
  else if t < 40 then 0x6ED9EBA1
  else if t < 60 then 0x8F1BBCDC
  else 0xCA62C1D6

/-- Big-endian byte decomposition: `beBytes n v` is the `n` low-order
bytes of `v`, most significant first. -/
def beBytes : Nat → Nat → List Nat
  | 0, _ => []
  | k + 1, v => beBytes k (v / 256) ++ [v % 256]

/-- Group bytes into big-endian 32-bit words (length a multiple of 4). -/
def bytesToWords : List Nat → List Nat
  | b0 :: b1 :: b2 :: b3 :: rest =>
      (((b0 * 256 + b1) * 256 + b2) * 256 + b3) :: bytesToWords rest
  | _ => []

/-- Group a word list into 16-word blocks (length a multiple of 16). -/
def wordsToBlocks : List Nat → List (List Nat)
  | w0 :: w1 :: w2 :: w3 :: w4 :: w5 :: w6 :: w7 ::
    w8 :: w9 :: w10 :: w11 :: w12 :: w13 :: w14 :: w15 :: rest =>
      [w0, w1, w2, w3, w4, w5, w6, w7, w8, w9, w10, w11, w12, w13, w14, w15]
        :: wordsToBlocks rest
  | _ => []

/-- SHA-1 padding: append `0x80`, zero bytes up to 56 mod 64, then the
message bit length as 8 big-endian bytes. -/
def sha1Pad (msg : List Nat) : List Nat :=
  msg ++ [0x80] ++ List.replicate ((119 - msg.length % 64) % 64) 0
      ++ beBytes 8 (8 * msg.length)

/-- Extend the 16 block words to 80 schedule words; the accumulator list
holds the schedule so far, most recent word first. -/
def sha1ExtendRev : Nat → List Nat → List Nat
  | 0, acc => acc
  | n + 1, acc =>
      sha1ExtendRev n
        (rotl 1 (acc.getD 2 0 ^^^ acc.getD 7 0 ^^^ acc.getD 13 0 ^^^ acc.getD 15 0) :: acc)

/-- The 80-word message schedule of one block. -/
def sha1Schedule (block : List Nat) : List Nat :=
  (sha1ExtendRev 64 block.reverse).reverse

/-- The five-word SHA-1 working state. -/
structure Sha1State where
  a : Nat
  b : Nat
  c : Nat
  d : Nat
  e : Nat
deriving DecidableEq, Repr

/-- One SHA-1 round: `t` is the round index, `w` the schedule word. -/
def sha1Round (s : Sha1State) (tw : Nat × Nat) : Sha1State :=
  { a := w32 (rotl 5 s.a + sha1F tw.1 s.b s.c s.d + s.e + sha1K tw.1 + tw.2)
    b := s.a
    c := rotl 30 s.b
    d := s.c
    e := s.d }

/-- Process one 16-word block against the running hash state. -/
def sha1Compress (h : Sha1State) (block : List Nat) : Sha1State :=
  let f := ((sha1Schedule block).enum.foldl sha1Round h)
  { a := w32 (h.a + f.a), b := w32 (h.b + f.b), c := w32 (h.c + f.c),
    d := w32 (h.d + f.d), e := w32 (h.e + f.e) }

/-- SHA-1 initial state. -/
def sha1Init : Sha1State :=
  { a := 0x67452301, b := 0xEFCDAB89, c := 0x98BADCFE, d := 0x10325476, e := 0xC3D2E1F0 }

/-- SHA-1 digest of a byte string: the five 32-bit hash words. -/
def sha1 (msg : List Nat) : Sha1State :=
  (wordsToBlocks (bytesToWords (sha1Pad msg))).foldl sha1Compress sha1Init

/-- Lowercase hex digit for a nibble. -/
def hexChar (n : Nat) : Char :=
  if n < 10 then Char.ofNat (48 + n) else Char.ofNat (87 + n)

/-- Eight lowercase hex digits of a 32-bit word. -/
def hex8 (w : Nat) : List Char :=
  (beBytes 4 w).flatMap fun b => [hexChar (b / 16), hexChar (b % 16)]

/-- `hashlib.sha1(bytes).hexdigest()`. -/
def sha1Hex (msg : List Nat) : String :=
  ⟨((fun s : Sha1State => [s.a, s.b, s.c, s.d, s.e]) (sha1 msg)).flatMap hex8⟩

/-- `hashlib.sha1(s.encode("utf-8")).hexdigest()`. -/
def sha1HexOfString (s : String) : String :=
  sha1Hex (utf8Bytes s)

example : sha1HexOfString "abc" = "a9993e364706816aba3e25717850c26c9cd0d89d" := by decide

example : sha1HexOfString "" = "da39a3ee5e6b4b0d3255bfef95601890afd80709" := by decide

/-! ## The raw feed entry (feedparser's per-item mapping)

The script reads an entry only through `getattr(entry, "id", None)`,
`entry.get(key)`, `"key" in entry and entry.key`, and indexing the first
element of the attachment lists.  We model it as a record of optional
fields; `none` stands for "key absent or stored value `None`" (the two
cases every access in the script treats identically).  For the
attachment lists, `none` models an absent key and `some []` a present
but empty list — the script distinguishes presence (`"enclosures" in
entry`) from non-emptiness (truthiness). -/

/-- One element of `entry.enclosures` / `media_content` /
`media_thumbnail`: the script only reads `.get("url")`. -/
structure Attachment where
  url : Option String
deriving DecidableEq, Repr

/-- A raw feedparser entry, restricted to the fields the script reads.
`published_parsed`/`updated_parsed` are the timestamps as epoch seconds
(`time.mktime` of the parsed `struct_time`). -/
structure Entry where
  id : Option String
  guid : Option String
  link : Option String
  title : Option String
  description : Option String
  summary : Option String
  published_parsed : Option Int
  updated_parsed : Option Int
  enclosures : Option (List Attachment)
  media_content : Option (List Attachment)
  media_thumbnail : Option (List Attachment)
deriving DecidableEq, Repr

/-- Python `a or b` on optional strings: `None` and `""` are falsy, so
the left operand wins exactly when it is a non-empty string. -/
def pyOrStr (a b : Option String) : Option String :=
  match a with
  | some s => if s = "" then b else some s
  | none => b

/-! ## `normalize_guid` (script lines 26-32) -/

/-- `normalize_guid(entry)`:
`guid = getattr(entry, "id", None) or entry.get("guid") or entry.get("link")`;
if that is falsy (absent or empty), fall back to
`sha1(f"{title}-{link}".encode("utf-8")).hexdigest()` with both fields
defaulted to `""`. -/
def normalize_guid (e : Entry) : String :=
  match pyOrStr (pyOrStr e.id e.guid) e.link with
  | some s =>
      if s = "" then sha1HexOfString (e.title.getD "" ++ "-" ++ e.link.getD "") else s
  | none => sha1HexOfString (e.title.getD "" ++ "-" ++ e.link.getD "")

/-! ## `entry_datetime` (script lines 34-41)

Python's timezone-aware datetimes are modelled as an instant (epoch
seconds) tagged with the timezone they are expressed in; comparison and
subtraction of aware datetimes act on the instant.  The chain
`datetime.fromtimestamp(time.mktime(tm), tz=timezone.utc).astimezone(TIMEZONE_PL)`
keeps the instant and re-expresses it in the Polish timezone. -/

/-- The timezones appearing in the script: `timezone.utc` and
`tz.gettz("Europe/Warsaw")`. -/
inductive PyTz
  | utc
  | warsaw
deriving DecidableEq, Repr

/-- `TIMEZONE_PL = tz.gettz("Europe/Warsaw")`. -/
def TIMEZONE_PL : PyTz := .warsaw

/-- A timezone-aware Python datetime: an instant in epoch seconds plus
the timezone it is displayed in. -/
structure PyDateTime where
  instant : Int
  tzinfo : PyTz
deriving DecidableEq, Repr

/-- `entry_datetime(entry)`: the `published_parsed` timestamp if
present, else `updated_parsed`, else `datetime.now(TIMEZONE_PL)` —
always expressed in `TIMEZONE_PL`.  (`now` is the injected run time.) -/
def entry_datetime (now : Int) (e : Entry) : PyDateTime :=
  match e.published_parsed with
  | some t => { instant := t, tzinfo := TIMEZONE_PL }
  | none =>
      match e.updated_parsed with
      | some t => { instant := t, tzinfo := TIMEZONE_PL }
      | none => { instant := now, tzinfo := TIMEZONE_PL }

/-! ## `extract_image` (script lines 48-60) -/

/-- The candidate image URL: the `url` field of the first enclosure if
the `enclosures` key is present and the list non-empty, else likewise
for `media_content`, else for `media_thumbnail`, else `None`.  This is
the value of the script's local variable `url` after the `if/elif`
chain. -/
def selected_image_url (e : Entry) : Option String :=
  match e.enclosures with
  | some (att :: _) => att.url
  | _ =>
      match e.media_content with
      | some (att :: _) => att.url
      | _ =>
          match e.media_thumbnail with
          | some (att :: _) => att.url
          | _ => none

/-- Python `s.startswith(pre)`: a character-level prefix test.
(Modelled on the character list rather than with `String.startsWith`,
whose byte-position implementation the kernel cannot evaluate.) -/
def pyStartsWith (s pre : String) : Bool :=
  pre.data.isPrefixOf s.data

/-- `if not url or not url.startswith("http"): url = FALLBACK_IMAGE`. -/
def httpOrFallback (u : Option String) : String :=
  match u with
  | some s => if s == "" || !pyStartsWith s "http" then FALLBACK_IMAGE else s
  | none => FALLBACK_IMAGE

/-- `extract_image(entry)`. -/
def extract_image (e : Entry) : String :=
  httpOrFallback (selected_image_url e)

/-! ## The normalized item and the per-entry normalization
(the dict appended at script lines 81-89) -/

/-- The canonical record the pipeline operates on (the dict built in
the aggregation loop). -/
structure NormalizedItem where
  guid : String
  title : String
  link : String
  description : String
  pubDate : PyDateTime
  label : String
  image : String
deriving DecidableEq, Repr

/-- Python `str.strip()`: drop whitespace from both ends.
(`Char.isWhitespace` covers the ASCII whitespace; the Unicode-only
whitespace Python additionally strips does not affect any claim.) -/
def pyStrip (s : String) : String :=
  ⟨((s.data.dropWhile Char.isWhitespace).reverse.dropWhile Char.isWhitespace).reverse⟩

/-- The item dict built for one entry (script lines 78-89).  Note
`e.get("description", e.get("summary", ""))`: the `summary` fallback is
consulted only when the `description` key is absent. -/
def normalizeEntry (now : Int) (label : String) (e : Entry) : NormalizedItem :=
  { guid := normalize_guid e
    title := pyStrip (e.title.getD "")
    link := pyStrip (e.link.getD "")
    description := pyStrip (match e.description with
      | some d => d
      | none => e.summary.getD "")
    pubDate := entry_datetime now e
    label := label
    image := extract_image e }

/-! ## Aggregation loop (script lines 64-89)

Fetching (`feedparser.parse`) is an external network collaborator: a
run is modelled on the list of already-fetched parse results, one per
configured `(url, label)` pair, in source order. -/

/-- The result of `feedparser.parse(url)`: the malformed-feed flag and
the entry list. -/
structure ParsedFeed where
  bozo : Bool
  entries : List Entry
deriving DecidableEq, Repr

/-- One configured feed source together with its fetch result. -/
structure Source where
  url : String
  label : String
  parsed : ParsedFeed
deriving DecidableEq, Repr

/-- The mutable state of the aggregation loop: the working `items`
list, the `seen` set of guids (a list queried only through membership),
and the lines written to `sys.stderr`. -/
structure AggState where
  items : List NormalizedItem
  seen : List String
  stderrLog : List String
deriving DecidableEq, Repr

/-- The warning line written for a bozo feed:
`f"[WARN] Problem z feedem: {url}\n"`. -/
def warnLine (url : String) : String :=
  "[WARN] Problem z feedem: " ++ url ++ "\n"

/-- The inner `for e in parsed.entries` loop: resolve the guid, skip
the entry if the guid was already seen, otherwise record the guid and
append the normalized item. -/
def processEntries (now : Int) (label : String) : List Entry → AggState → AggState
  | [], st => st
  | e :: es, st =>
      if normalize_guid e ∈ st.seen then processEntries now label es st
      else
        processEntries now label es
          { items := st.items ++ [normalizeEntry now label e]
            seen := normalize_guid e :: st.seen
            stderrLog := st.stderrLog }

/-- One iteration of the outer `for url, label in FEEDS` loop: warn on
a bozo feed, then process its entries. -/
def processSource (now : Int) (st : AggState) (src : Source) : AggState :=
  let st1 :=
    if src.parsed.bozo then
      { st with stderrLog := st.stderrLog ++ [warnLine src.url] }
    else st
  processEntries now src.label src.parsed.entries st1

/-- The whole aggregation loop, from the empty state. -/
def aggregate (now : Int) (sources : List Source) : AggState :=
  sources.foldl (processSource now) { items := [], seen := [], stderrLog := [] }

/-! ## Retention filter and sort (script lines 93-95) -/

/-- `cutoff = datetime.now(TIMEZONE_PL) - timedelta(days=RETENTION_DAYS)`
(as an instant; aware-datetime comparison compares instants). -/
def cutoff (now : Int) : Int := now - RETENTION_DAYS * SECONDS_PER_DAY

/-- `items = [it for it in items if it["pubDate"] >= cutoff]`. -/
def retainItems (now : Int) (l : List NormalizedItem) : List NormalizedItem :=
  l.filter fun it => decide (cutoff now ≤ it.pubDate.instant)

/-- The comparison behind `items.sort(key=lambda x: x["pubDate"], reverse=True)`:
`pubGe a b` holds when `a` may come before `b` in the descending
result. -/
def pubGe (a b : NormalizedItem) : Prop :=
  b.pubDate.instant ≤ a.pubDate.instant

instance : DecidableRel pubGe := fun a b =>
  inferInstanceAs (Decidable (b.pubDate.instant ≤ a.pubDate.instant))

instance : IsTotal NormalizedItem pubGe :=
  ⟨fun a b => Int.le_total b.pubDate.instant a.pubDate.instant⟩

instance : IsTrans NormalizedItem pubGe :=
  ⟨fun _ _ _ h1 h2 => le_trans h2 h1⟩

/-- `items.sort(key=lambda x: x["pubDate"], reverse=True)`: CPython's
sort is stable, and a stable descending sort is the insertion sort that
inserts each element before the first element whose key is `≤` its own
— `List.insertionSort pubGe` (the output of a stable sort is uniquely
determined by the permutation, sortedness and stability properties). -/
def pySortDesc (l : List NormalizedItem) : List NormalizedItem :=
  List.insertionSort pubGe l

/-- The item list the script serializes: aggregated, retention-filtered,
sorted by `pubDate` descending. -/
def finalItems (now : Int) (sources : List Source) : List NormalizedItem :=
  pySortDesc (retainItems now (aggregate now sources).items)

/-! ## RSS 2.0 document construction and serialization
(script lines 99-149)

The document tree is built with `xml.etree.ElementTree` and serialized
by `ET.tostring(rss, encoding="utf-8", method="xml").decode("utf-8")`.
We model the tree and CPython's serializer (`_serialize_xml`,
`_escape_cdata`, `_escape_attrib`, `_namespaces`) for the features this
tree exercises:

* on CPython ≥ 3.8, an explicit `encoding="utf-8"` does *not* prepend
  an XML declaration (one is prepended only for encodings other than
  UTF-8/US-ASCII/unicode);
* tags of the form `{uri}local` get generated prefixes `ns0`, `ns1`, …
  assigned in document order, all declared on the root element before
  its literal attributes (ET sorts the declarations by prefix name,
  which coincides with assignment order for the single-namespace
  documents this script builds);
* an element whose text is falsy (absent or `""`) and which has no
  children is self-closed as `<tag />`;
* character data escapes `&`, `<`, `>`; attribute values additionally
  escape `"`, CR, LF and TAB.

`strftime("%a, %d %b %Y %H:%M:%S %z")` is external datetime-library
formatting; it is injected as the parameter `fmt`. -/

/-- An ElementTree element as this script builds it (no tails, no
comments or processing instructions). -/
structure XmlElem where
  tag : String
  attrib : List (String × String)
  text : Option String
  children : List XmlElem

/-- `_escape_cdata`, per character. -/
def escCdataChar (c : Char) : List Char :=
  if c = '&' then "&amp;".data
  else if c = '<' then "&lt;".data
  else if c = '>' then "&gt;".data
  else [c]

/-- `_escape_cdata` (the sequential `str.replace` passes agree with the
per-character map since no replacement output is itself replaced). -/
def escape_cdata (s : String) : String :=
  ⟨s.data.flatMap escCdataChar⟩

/-- `_escape_attrib`, per character. -/
def escAttribChar (c : Char) : List Char :=
  if c = '&' then "&amp;".data
  else if c = '<' then "&lt;".data
  else if c = '>' then "&gt;".data
  else if c = '"' then "&quot;".data
  else if c = '\r' then "&#13;".data
  else if c = '\n' then "&#10;".data
  else if c = '\t' then "&#09;".data
  else [c]

/-- `_escape_attrib`. -/
def escape_attrib (s : String) : String :=
  ⟨s.data.flatMap escAttribChar⟩

/-- Python truthiness of an element's `.text` (`None` and `""` falsy). -/
def pyTruthyText : Option String → Bool
  | some s => s != ""
  | none => false

def lbraceChar : Char := Char.ofNat 123

def rbraceChar : Char := Char.ofNat 125

/-- The namespace URI of a `{uri}local` tag, if any. -/
def nsOfTag (tag : String) : Option String :=
  match tag.data with
  | c :: rest => if c = lbraceChar then some ⟨rest.takeWhile (· != rbraceChar)⟩ else none
  | [] => none

/-- The local part of a `{uri}local` tag. -/
def localOfTag (tag : String) : String :=
  match tag.data with
  | c :: rest => if c = lbraceChar then ⟨(rest.dropWhile (· != rbraceChar)).drop 1⟩ else tag
  | [] => tag

/-- Keep the first occurrence of each string, dropping those already in
`seen` (order-preserving deduplication; also the content of the
aggregation loop's `seen`-set discipline, reused by the dedup claim). -/
def dedupFirstFrom : List String → List String → List String
  | _, [] => []
  | seen, x :: xs =>
      if x ∈ seen then dedupFirstFrom seen xs
      else x :: dedupFirstFrom (x :: seen) xs

/-- All tags and attribute keys of the tree in `elem.iter()` document
order, cut off at depth `fuel` (the trees this script builds have depth
4; every use passes ample fuel). -/
def collectTags : Nat → XmlElem → List String
  | 0, _ => []
  | fuel + 1, el =>
      el.tag :: el.attrib.map Prod.fst ++ el.children.flatMap (collectTags fuel)

/-- The generated prefix for a namespace URI (`ns0`, `ns1`, … in
assignment order). -/
def nsPrefixName (uris : List String) (u : String) : String :=
  "ns" ++ toString (uris.indexOf u)

/-- The serialized qualified name of a tag or attribute key. -/
def qnameOf (uris : List String) (tag : String) : String :=
  match nsOfTag tag with
  | some u => nsPrefixName uris u ++ ":" ++ localOfTag tag
  | none => tag

/-- `_serialize_xml` with `short_empty_elements=True`: start tag with
xmlns declarations (root only) and attributes, then either ` />` or
`>…text…children…</tag>`.  Structural fuel keeps the recursion
kernel-reducible; the script's trees never exhaust it. -/
def serializeElem (q : String → String) : Nat → String → XmlElem → String
  | 0, _, _ => ""
  | fuel + 1, nsDecls, el =>
      if pyTruthyText el.text || !el.children.isEmpty then
        ("<" ++ q el.tag ++ nsDecls
            ++ String.join (el.attrib.map fun kv =>
                " " ++ q kv.1 ++ "=\"" ++ escape_attrib kv.2 ++ "\"")
            ++ ">"
            ++ (if pyTruthyText el.text then escape_cdata (el.text.getD "") else ""))
          ++ String.join (el.children.map (serializeElem q fuel ""))
          ++ ("</" ++ q el.tag ++ ">")
      else
        "<" ++ q el.tag ++ nsDecls
          ++ String.join (el.attrib.map fun kv =>
              " " ++ q kv.1 ++ "=\"" ++ escape_attrib kv.2 ++ "\"")
          ++ " />"

/-- Fuel bound for serialization; the script's document tree has depth 4. -/
def XML_FUEL : Nat := 16

/-- The ` xmlns:ns0="uri"…` declarations written on the root. -/
def nsDeclsOf (uris : List String) : String :=
  String.join (uris.enum.map fun p =>
    " xmlns:ns" ++ toString p.1 ++ "=\"" ++ escape_attrib p.2 ++ "\"")

/-- `ET.tostring(root, encoding="utf-8", method="xml").decode("utf-8")`
on CPython ≥ 3.8: no XML declaration, namespaces collected from the
whole tree and declared on the root. -/
def nsUrisOf (root : XmlElem) : List String :=
  dedupFirstFrom [] ((collectTags XML_FUEL root).filterMap nsOfTag)

def tostringEt (root : XmlElem) : String :=
  serializeElem (qnameOf (nsUrisOf root)) XML_FUEL (nsDeclsOf (nsUrisOf root)) root

/-- `xmlns:media` value / MRSS namespace URI. -/
def MRSS_NS : String := "http://search.yahoo.com/mrss/"

/-- The tag `"{http://search.yahoo.com/mrss/}content"` (braces written
as character escapes). -/
def mrssContentTag : String := "\x7b" ++ MRSS_NS ++ "\x7d" ++ "content"

/-- A child element carrying only text. -/
def textElem (tag : String) (text : String) : XmlElem :=
  { tag := tag, attrib := [], text := some text, children := [] }

/-- One `<item>` element (script lines 110-133). -/
def itemElem (fmt : PyDateTime → String) (it : NormalizedItem) : XmlElem :=
  { tag := "item", attrib := [], text := none, children :=
      [ textElem "title" (if it.title = "" then "(bez tytułu)" else it.title)
      , textElem "link" it.link
      , textElem "description" it.description
      , textElem "guid" it.guid
      , textElem "pubDate" (fmt it.pubDate)
      , textElem "category" it.label
      , { tag := "enclosure"
          attrib := [("url", it.image), ("length", "0"), ("type", "image/jpeg")]
          text := none, children := [] }
      , { tag := mrssContentTag
          attrib := [("url", it.image), ("medium", "image")]
          text := none, children := [] } ] }

/-- The `<channel>` element (script lines 103-108 plus the item loop). -/
def channelElem (fmt : PyDateTime → String) (now : Int) (items : List NormalizedItem) : XmlElem :=
  { tag := "channel", attrib := [], text := none, children :=
      [ textElem "title" "medonetRSS – agregat (ogólny, dziecko, uroda, żywienie)"
      , textElem "link" "https://www.medonet.pl/"
      , textElem "description" "Zbiorczy RSS z wybranych sekcji Medonetu. Retencja: 14 dni."
      , textElem "language" "pl-PL"
      , textElem "lastBuildDate" (fmt { instant := now, tzinfo := TIMEZONE_PL }) ]
      ++ items.map (itemElem fmt) }

/-- The `<rss>` root element (script lines 99-102). -/
def buildRss (fmt : PyDateTime → String) (now : Int) (items : List NormalizedItem) : XmlElem :=
  { tag := "rss"
    attrib := [("version", "2.0"), ("xmlns:media", MRSS_NS)]
    text := none
    children := [channelElem fmt now items] }

/-- The manually prepended declaration line (script line 146):
`'<?xml version="1.0" encoding="UTF-8"?>\n'`. -/
def XML_DECLARATION : String := "<?xml version=\"1.0\" encoding=\"UTF-8\"?>\n"

/-- Python `str.lstrip()` (script line 143); Lean's `Char.isWhitespace`
covers the whitespace the serializer could produce at the front —
in fact the serialized body always begins with `<`. -/
def pyLstrip (s : String) : String :=
  ⟨s.data.dropWhile Char.isWhitespace⟩

/-- The full content written to the output file (script lines 140-149):
declaration plus the left-stripped serialized body.  The file is opened
with `newline="\n"`, so the written text is the file's byte content
decoded. -/
def writtenFile (fmt : PyDateTime → String) (now : Int) (sources : List Source) : String :=
  XML_DECLARATION ++ pyLstrip (tostringEt (buildRss fmt now (finalItems now sources)))


/-! ## Concrete entries used by witnesses and counterexamples -/

/-- An entry with every optional field absent. -/
def emptyEntry : Entry :=
  { id := none, guid := none, link := none, title := none,
    description := none, summary := none,
    published_parsed := none, updated_parsed := none,
    enclosures := none, media_content := none, media_thumbnail := none }

/-- The entry of the spec's first scenario: no title, no description,
link `https://example.com/a`, no identifier, no timestamp, no image. -/
def entryC6 : Entry := { emptyEntry with link := some "https://example.com/a" }

/-! ## Image fallback (C5, C10) -/

/-- C5: for every raw entry, `extract_image` yields a URL that begins
with `"http"` or equals the fixed fallback constant; it is never empty;
and a candidate URL that is missing or does not begin with `"http"` is
replaced by the fallback constant. -/
theorem C5_image_fallback (e : Entry) :
    (pyStartsWith (extract_image e) "http" = true ∨ extract_image e = FALLBACK_IMAGE)
    ∧ extract_image e ≠ ""
    ∧ (∀ u, selected_image_url e = some u → pyStartsWith u "http" = false →
        extract_image e = FALLBACK_IMAGE)
    ∧ (selected_image_url e = none → extract_image e = FALLBACK_IMAGE) := by
  unfold extract_image
  rcases hsel : selected_image_url e with _ | u
  · exact ⟨Or.inr rfl, by decide, fun u hu _ => absurd hu (by simp), fun _ => rfl⟩
  · by_cases hc : (u == "" || !pyStartsWith u "http") = true
    · have hfb : httpOrFallback (some u) = FALLBACK_IMAGE := by
        show (if (u == "" || !pyStartsWith u "http") = true
            then FALLBACK_IMAGE else u) = FALLBACK_IMAGE
        rw [if_pos hc]
      rw [hfb]
      exact ⟨Or.inr rfl, by decide, fun _ _ _ => rfl, fun h => by cases h⟩
    · have hfalse : (u == "" || !pyStartsWith u "http") = false := by
        simpa using hc
      simp only [Bool.or_eq_false_iff, beq_eq_false_iff_ne, ne_eq,
        Bool.not_eq_false'] at hfalse
      have hfb : httpOrFallback (some u) = u := by
        show (if (u == "" || !pyStartsWith u "http") = true
            then FALLBACK_IMAGE else u) = u
        rw [if_neg hc]
      rw [hfb]
      refine ⟨Or.inl hfalse.2, hfalse.1, ?_, fun h => by cases h⟩
      intro u' h hf
      cases h
      rw [hfalse.2] at hf
      cases hf

/-- Witness entry for C5: its only candidate is a relative path. -/
def entryC5 : Entry := { emptyEntry with enclosures := some [{ url := some "/rel.jpg" }] }

theorem C5_image_fallback_witness :
    selected_image_url entryC5 = some "/rel.jpg"
    ∧ pyStartsWith "/rel.jpg" "http" = false
    ∧ extract_image entryC5 = FALLBACK_IMAGE :=
  ⟨rfl, by decide, (C5_image_fallback entryC5).2.2.1 "/rel.jpg" rfl (by decide)⟩

/-- C10: candidate priority is decided by presence of the candidate
list, not validity of its URL: with a present, non-empty `enclosures`
list the first enclosure's `url` is the only candidate considered (the
media fields are ignored even if they hold valid http URLs);
`media_content` is consulted only when `enclosures` is absent or empty,
and `media_thumbnail` only when both higher-priority lists are absent
or empty. -/
theorem C10_image_priority (e : Entry) :
    (∀ att rest, e.enclosures = some (att :: rest) →
        extract_image e = httpOrFallback att.url)
    ∧ ((e.enclosures = none ∨ e.enclosures = some []) →
        ∀ att rest, e.media_content = some (att :: rest) →
        extract_image e = httpOrFallback att.url)
    ∧ ((e.enclosures = none ∨ e.enclosures = some []) →
        (e.media_content = none ∨ e.media_content = some []) →
        ∀ att rest, e.media_thumbnail = some (att :: rest) →
        extract_image e = httpOrFallback att.url) := by
  refine ⟨?_, ?_, ?_⟩
  · intro att rest h
    unfold extract_image selected_image_url
    rw [h]
  · rintro (h | h) att rest hm <;>
      · unfold extract_image selected_image_url
        rw [h, hm]
  · rintro (h | h) (h2 | h2) att rest hm <;>
      · unfold extract_image selected_image_url
        rw [h, h2, hm]

/-- Witness entries for C10: a bad first enclosure shadowing a valid
media URL; an empty enclosure list falling through to `media_content`;
`enclosures` absent and `media_content` empty falling through to
`media_thumbnail`. -/
def entryC10a : Entry :=
  { emptyEntry with
    enclosures := some [{ url := none }]
    media_content := some [{ url := some "http://good.example/img.jpg" }] }

def entryC10b : Entry :=
  { emptyEntry with
    enclosures := some []
    media_content := some [{ url := some "http://good.example/img.jpg" }] }

def entryC10c : Entry :=
  { emptyEntry with
    media_content := some []
    media_thumbnail := some [{ url := some "http://good.example/t.jpg" }] }

theorem C10_image_priority_witness :
    extract_image entryC10a = FALLBACK_IMAGE
    ∧ extract_image entryC10b = "http://good.example/img.jpg"
    ∧ extract_image entryC10c = "http://good.example/t.jpg" := by
  refine ⟨?_, ?_, ?_⟩
  · have h := (C10_image_priority entryC10a).1 { url := none } [] rfl
    rw [h]; rfl
  · have h := (C10_image_priority entryC10b).2.1 (Or.inr rfl)
      { url := some "http://good.example/img.jpg" } [] rfl
    rw [h]; decide
  · have h := (C10_image_priority entryC10c).2.2 (Or.inl rfl) (Or.inr rfl)
      { url := some "http://good.example/t.jpg" } [] rfl
    rw [h]; decide

/-! ## The no-metadata scenario (C6) -/

/-- C6 counterexample: for the scenario entry (no title, no identifier,
no timestamp, no image, link `https://example.com/a`), the resolved
guid is the link itself, not `SHA-1("-https://example.com/a")` — the
hash fallback is reached only when `id`, `guid` and `link` are all
absent or empty, and here the link is present. -/
theorem C6_guid_counterexample :
    (normalizeEntry 0 "ogólny" entryC6).guid = "https://example.com/a"
    ∧ (normalizeEntry 0 "ogólny" entryC6).guid ≠ sha1HexOfString "-https://example.com/a" :=
  ⟨rfl, by decide⟩

/-- C6 (amended): for the scenario entry, the output item has guid
equal to the entry's link `https://example.com/a` (the SHA-1 content
hash is used only when identifier, guid and link are all missing or
empty), image equal to the fallback constant, and pubDate equal to the
current run time. -/
theorem C6_scenario (now : Int) (label : String) :
    normalizeEntry now label entryC6 =
      { guid := "https://example.com/a", title := "", link := "https://example.com/a",
        description := "", pubDate := { instant := now, tzinfo := PyTz.warsaw },
        label := label, image := FALLBACK_IMAGE } := rfl

/-! ## Timestamp resolution (C8) -/

/-- C8: the resolved pubDate is the published timestamp if present,
else the updated timestamp if present, else the run time, and is always
expressed in the fixed target timezone (Europe/Warsaw); an entry with
neither timestamp always satisfies the retention cutoff. -/
theorem C8_timestamp (now : Int) (e : Entry) :
    (entry_datetime now e).tzinfo = TIMEZONE_PL
    ∧ entry_datetime now e =
        (match e.published_parsed with
          | some t => { instant := t, tzinfo := TIMEZONE_PL }
          | none =>
            match e.updated_parsed with
            | some t => { instant := t, tzinfo := TIMEZONE_PL }
            | none => { instant := now, tzinfo := TIMEZONE_PL })
    ∧ (e.published_parsed = none → e.updated_parsed = none →
        cutoff now ≤ (entry_datetime now e).instant) := by
  refine ⟨?_, ?_, ?_⟩
  · unfold entry_datetime
    rcases e.published_parsed with _ | t
    · rcases e.updated_parsed with _ | t <;> rfl
    · rfl
  · unfold entry_datetime
    rcases e.published_parsed with _ | t
    · rcases e.updated_parsed with _ | t <;> rfl
    · rfl
  · intro h1 h2
    simp only [entry_datetime, h1, h2, cutoff, RETENTION_DAYS, SECONDS_PER_DAY]
    omega

theorem C8_timestamp_witness :
    entryC6.published_parsed = none ∧ entryC6.updated_parsed = none
    ∧ cutoff 1700000000 ≤ (entry_datetime 1700000000 entryC6).instant :=
  ⟨rfl, rfl, (C8_timestamp 1700000000 entryC6).2.2 rfl rfl⟩

/-! ## Deduplication (C1) -/

/-- All raw entries of a run, in source-then-entry order. -/
def allEntries (sources : List Source) : List Entry :=
  sources.flatMap fun s => s.parsed.entries

theorem dedupFirstFrom_congr :
    ∀ (l : List String) {s₁ s₂ : List String}, (∀ g, g ∈ s₁ ↔ g ∈ s₂) →
      dedupFirstFrom s₁ l = dedupFirstFrom s₂ l := by
  intro l
  induction l with
  | nil => intro s₁ s₂ _; rfl
  | cons x xs ih =>
      intro s₁ s₂ h
      by_cases hx : x ∈ s₁
      · rw [dedupFirstFrom, dedupFirstFrom, if_pos hx, if_pos ((h x).mp hx)]
        exact ih h
      · have hx2 : x ∉ s₂ := fun c => hx ((h x).mpr c)
        rw [dedupFirstFrom, dedupFirstFrom, if_neg hx, if_neg hx2]
        refine congrArg (x :: ·) (ih ?_)
        intro g
        simp only [List.mem_cons]
        exact or_congr Iff.rfl (h g)

theorem dedupFirstFrom_append (xs : List String) :
    ∀ (seen ys : List String),
      dedupFirstFrom seen (xs ++ ys)
        = dedupFirstFrom seen xs ++ dedupFirstFrom (xs ++ seen) ys := by
  induction xs with
  | nil => intro seen ys; rfl
  | cons x xs ih =>
      intro seen ys
      by_cases hx : x ∈ seen
      · rw [List.cons_append, dedupFirstFrom, if_pos hx, ih, dedupFirstFrom, if_pos hx]
        refine congrArg _ (dedupFirstFrom_congr ys ?_)
        intro g
        simp only [List.mem_append, List.mem_cons]
        constructor
        · rintro (h | h)
          · exact Or.inl (Or.inr h)
          · exact Or.inr h
        · rintro ((rfl | h) | h)
          · exact Or.inr hx
          · exact Or.inl h
          · exact Or.inr h
      · rw [List.cons_append, dedupFirstFrom, if_neg hx, ih, dedupFirstFrom, if_neg hx,
          List.cons_append]
        refine congrArg _ (congrArg _ (dedupFirstFrom_congr ys ?_))
        intro g
        simp only [List.mem_append, List.mem_cons]
        tauto

theorem dedupFirstFrom_nodup_disjoint (l : List String) :
    ∀ seen, (dedupFirstFrom seen l).Nodup ∧ ∀ g ∈ dedupFirstFrom seen l, g ∉ seen := by
  induction l with
  | nil => intro seen; simp [dedupFirstFrom]
  | cons x xs ih =>
      intro seen
      by_cases hx : x ∈ seen
      · rw [dedupFirstFrom, if_pos hx]
        exact ih seen
      · rw [dedupFirstFrom, if_neg hx]
        obtain ⟨hn, hd⟩ := ih (x :: seen)
        refine ⟨List.nodup_cons.mpr ⟨fun c => hd x c (by simp), hn⟩, ?_⟩
        intro g hg
        rcases List.mem_cons.mp hg with rfl | hg'
        · exact hx
        · exact fun c => hd g hg' (List.mem_cons_of_mem _ c)

/-- The guid of a normalized item is the entry's resolved guid. -/
theorem normalizeEntry_guid (now : Int) (label : String) (e : Entry) :
    (normalizeEntry now label e).guid = normalize_guid e := rfl

theorem processEntries_items_guids (now : Int) (label : String) :
    ∀ (es : List Entry) (st : AggState),
      (processEntries now label es st).items.map NormalizedItem.guid
        = st.items.map NormalizedItem.guid
          ++ dedupFirstFrom st.seen (es.map normalize_guid) := by
  intro es
  induction es with
  | nil => intro st; simp [processEntries, dedupFirstFrom]
  | cons e es ih =>
      intro st
      by_cases h : normalize_guid e ∈ st.seen
      · rw [processEntries, if_pos h, ih, List.map_cons, dedupFirstFrom, if_pos h]
      · rw [processEntries, if_neg h, ih, List.map_cons, dedupFirstFrom, if_neg h]
        simp [normalizeEntry_guid]

theorem processEntries_seen_mem (now : Int) (label : String) :
    ∀ (es : List Entry) (st : AggState) (g : String),
      (g ∈ (processEntries now label es st).seen
        ↔ g ∈ st.seen ∨ g ∈ es.map normalize_guid) := by
  intro es
  induction es with
  | nil => intro st g; simp [processEntries]
  | cons e es ih =>
      intro st g
      by_cases h : normalize_guid e ∈ st.seen
      · rw [processEntries, if_pos h, ih]
        simp only [List.map_cons, List.mem_cons]
        constructor
        · rintro (hg | hg)
          · exact Or.inl hg
          · exact Or.inr (Or.inr hg)
        · rintro (hg | rfl | hg)
          · exact Or.inl hg
          · exact Or.inl h
          · exact Or.inr hg
      · rw [processEntries, if_neg h, ih]
        simp only [List.map_cons, List.mem_cons]
        tauto

theorem processSource_items_guids (now : Int) (st : AggState) (src : Source) :
    (processSource now st src).items.map NormalizedItem.guid
      = st.items.map NormalizedItem.guid
        ++ dedupFirstFrom st.seen (src.parsed.entries.map normalize_guid) := by
  unfold processSource
  by_cases hb : src.parsed.bozo <;> simp only [hb, if_pos, if_neg, Bool.false_eq_true,
    if_false, if_true] <;> rw [processEntries_items_guids]

theorem processSource_seen_mem (now : Int) (st : AggState) (src : Source) (g : String) :
    g ∈ (processSource now st src).seen
      ↔ g ∈ st.seen ∨ g ∈ src.parsed.entries.map normalize_guid := by
  unfold processSource
  by_cases hb : src.parsed.bozo <;> simp only [hb, if_pos, if_neg, Bool.false_eq_true,
    if_false, if_true] <;> rw [processEntries_seen_mem]

theorem aggLoop_items_guids (now : Int) :
    ∀ (sources : List Source) (st : AggState),
      (sources.foldl (processSource now) st).items.map NormalizedItem.guid
        = st.items.map NormalizedItem.guid
          ++ dedupFirstFrom st.seen ((allEntries sources).map normalize_guid) := by
  intro sources
  induction sources with
  | nil => intro st; simp [allEntries, dedupFirstFrom]
  | cons s ss ih =>
      intro st
      rw [List.foldl_cons, ih, processSource_items_guids]
      have hsplit : (allEntries (s :: ss)).map normalize_guid
          = s.parsed.entries.map normalize_guid ++ (allEntries ss).map normalize_guid := by
        simp [allEntries]
      rw [hsplit, dedupFirstFrom_append, List.append_assoc]
      refine congrArg _ (congrArg _ (dedupFirstFrom_congr _ ?_))
      intro g
      rw [processSource_seen_mem]
      simp only [List.mem_append]
      tauto

theorem aggLoop_seen_mem (now : Int) :
    ∀ (sources : List Source) (st : AggState) (g : String),
      (g ∈ (sources.foldl (processSource now) st).seen
        ↔ g ∈ st.seen ∨ g ∈ (allEntries sources).map normalize_guid) := by
  intro sources
  induction sources with
  | nil => intro st g; simp [allEntries]
  | cons s ss ih =>
      intro st g
      rw [List.foldl_cons, ih, processSource_seen_mem]
      have hsplit : (allEntries (s :: ss)).map normalize_guid
          = s.parsed.entries.map normalize_guid ++ (allEntries ss).map normalize_guid := by
        simp [allEntries]
      rw [hsplit]
      simp only [List.mem_append]
      tauto

/-- C1: within one aggregation run no two items in the working
collection share a guid (and hence none in the output either): the
guids of the aggregated items are exactly the first occurrences, in
source-then-entry order, of the guids resolved from all raw entries —
every later entry with an already-seen guid is skipped — and both the
working collection and the final output have pairwise-distinct guids. -/
theorem C1_dedup (now : Int) (sources : List Source) :
    (aggregate now sources).items.map NormalizedItem.guid
      = dedupFirstFrom [] ((allEntries sources).map normalize_guid)
    ∧ ((aggregate now sources).items.map NormalizedItem.guid).Nodup
    ∧ ((finalItems now sources).map NormalizedItem.guid).Nodup := by
  have h1 : (aggregate now sources).items.map NormalizedItem.guid
      = dedupFirstFrom [] ((allEntries sources).map normalize_guid) := by
    unfold aggregate
    rw [aggLoop_items_guids]
    rfl
  have hnodup : ((aggregate now sources).items.map NormalizedItem.guid).Nodup := by
    rw [h1]
    exact (dedupFirstFrom_nodup_disjoint _ []).1
  refine ⟨h1, hnodup, ?_⟩
  have hsub : ((retainItems now (aggregate now sources).items).map NormalizedItem.guid).Sublist
      ((aggregate now sources).items.map NormalizedItem.guid) :=
    (List.filter_sublist _).map NormalizedItem.guid
  have hret : ((retainItems now (aggregate now sources).items).map NormalizedItem.guid).Nodup :=
    List.Nodup.sublist hsub hnodup
  have hperm : List.Perm (finalItems now sources)
      (retainItems now (aggregate now sources).items) := by
    unfold finalItems pySortDesc
    exact List.perm_insertionSort pubGe _
  exact ((hperm.map NormalizedItem.guid).nodup_iff).mpr hret

/-! ## Retention (C2) -/

/-- C2: every item in the final output satisfies
`pubDate >= cutoff = now - 14 days`, and the boundary is inclusive:
every aggregated item whose pubDate is at least the cutoff (in
particular one equal to it) appears in the output. -/
theorem C2_retention (now : Int) (sources : List Source) :
    (∀ it, it ∈ finalItems now sources → cutoff now ≤ it.pubDate.instant)
    ∧ ∀ it, it ∈ (aggregate now sources).items →
        cutoff now ≤ it.pubDate.instant → it ∈ finalItems now sources := by
  have hperm : List.Perm (finalItems now sources)
      (retainItems now (aggregate now sources).items) := by
    unfold finalItems pySortDesc
    exact List.perm_insertionSort pubGe _
  constructor
  · intro it hit
    have h2 := hperm.mem_iff.mp hit
    simp only [retainItems] at h2
    exact of_decide_eq_true (List.mem_filter.mp h2).2
  · intro it hit hc
    refine hperm.mem_iff.mpr ?_
    simp only [retainItems]
    exact List.mem_filter.mpr ⟨hit, decide_eq_true hc⟩

/-- Witness data for C2: one source whose single entry was published
exactly at the cutoff instant (`now` is 14 days after epoch 0), so the
inclusive boundary is exercised. -/
def entryB : Entry :=
  { emptyEntry with link := some "https://example.com/b", published_parsed := some 0 }

def sourcesW : List Source :=
  [{ url := "https://www.medonet.pl/.feed", label := "ogólny",
     parsed := { bozo := false, entries := [entryB] } }]

def nowW : Int := 1209600

theorem C2_retention_witness :
    normalizeEntry nowW "ogólny" entryB ∈ (aggregate nowW sourcesW).items
    ∧ cutoff nowW = (normalizeEntry nowW "ogólny" entryB).pubDate.instant
    ∧ normalizeEntry nowW "ogólny" entryB ∈ finalItems nowW sourcesW :=
  ⟨by decide, by decide, (C2_retention nowW sourcesW).2 _ (by decide) (by decide)⟩

/-! ## Sorting (C3) -/

theorem filter_orderedInsert_key (t : Int) (x : NormalizedItem) :
    ∀ l : List NormalizedItem,
      (List.orderedInsert pubGe x l).filter (fun it => decide (it.pubDate.instant = t))
        = if x.pubDate.instant = t
          then x :: l.filter (fun it => decide (it.pubDate.instant = t))
          else l.filter (fun it => decide (it.pubDate.instant = t)) := by
  intro l
  induction l with
  | nil =>
      by_cases h : x.pubDate.instant = t
      · simp [List.orderedInsert, h]
      · simp [List.orderedInsert, h]
  | cons y ys ih =>
      rw [List.orderedInsert]
      by_cases hr : pubGe x y
      · rw [if_pos hr]
        by_cases h : x.pubDate.instant = t
        · simp [List.filter_cons, h]
        · simp [List.filter_cons, h]
      · rw [if_neg hr]
        have hxy : x.pubDate.instant < y.pubDate.instant := by
          unfold pubGe at hr
          omega
        by_cases h : x.pubDate.instant = t
        · have hy : ¬ y.pubDate.instant = t := by omega
          simp [List.filter_cons, h, hy, ih]
        · simp [List.filter_cons, h, ih]

theorem filter_insertionSort_key (t : Int) :
    ∀ l : List NormalizedItem,
      (List.insertionSort pubGe l).filter (fun it => decide (it.pubDate.instant = t))
        = l.filter (fun it => decide (it.pubDate.instant = t)) := by
  intro l
  induction l with
  | nil => rfl
  | cons x xs ih =>
      rw [List.insertionSort, filter_orderedInsert_key]
      by_cases h : x.pubDate.instant = t
      · simp [List.filter_cons, h, ih]
      · simp [List.filter_cons, h, ih]

/-- C3: the output item sequence is non-increasing in pubDate, and for
any timestamp the subsequence of output items carrying it equals the
corresponding subsequence of the sort's input (the retained items in
encounter order) — the sort is stable. -/
theorem C3_sort (now : Int) (sources : List Source) :
    (finalItems now sources).Pairwise
      (fun a b => b.pubDate.instant ≤ a.pubDate.instant)
    ∧ ∀ t : Int,
        (finalItems now sources).filter (fun it => decide (it.pubDate.instant = t))
          = (retainItems now (aggregate now sources).items).filter
              (fun it => decide (it.pubDate.instant = t)) := by
  constructor
  · exact List.sorted_insertionSort pubGe (retainItems now (aggregate now sources).items)
  · intro t
    exact filter_insertionSort_key t _

/-! ## Malformed-feed handling (C9) -/

/-- A configured source together with its fetch result. -/
def mkSource (url label : String) (b : Bool) (entries : List Entry) : Source :=
  { url := url, label := label, parsed := { bozo := b, entries := entries } }

theorem processEntries_canon (now : Int) (label : String) :
    ∀ (es : List Entry) (items : List NormalizedItem) (seen L : List String),
      processEntries now label es { items := items, seen := seen, stderrLog := L }
        = { processEntries now label es { items := items, seen := seen, stderrLog := [] }
            with stderrLog := L } := by
  intro es
  induction es with
  | nil => intro items seen L; rfl
  | cons e es ih =>
      intro items seen L
      by_cases h : normalize_guid e ∈ seen
      · simp only [processEntries, h, if_true, ite_true]
        exact ih items seen L
      · simp only [processEntries, h, if_false, ite_false]
        rw [ih]

theorem processSource_canon (now : Int) (url label : String) (b : Bool)
    (entries : List Entry) (st : AggState) :
    processSource now st (mkSource url label b entries)
      = { processEntries now label entries
            { items := st.items, seen := st.seen, stderrLog := [] }
          with stderrLog := st.stderrLog ++ (if b then [warnLine url] else []) } := by
  rcases st with ⟨i0, s0, L0⟩
  unfold processSource mkSource
  cases b
  all_goals simp only [Bool.false_eq_true, if_false, ite_false, if_true, ite_true]
  all_goals rw [processEntries_canon]
  all_goals simp

theorem aggLoop_canon (now : Int) :
    ∀ (srcs : List Source) (items : List NormalizedItem) (seen L : List String),
      srcs.foldl (processSource now) { items := items, seen := seen, stderrLog := L }
        = { srcs.foldl (processSource now) { items := items, seen := seen, stderrLog := [] }
            with stderrLog :=
              L ++ (srcs.foldl (processSource now)
                      { items := items, seen := seen, stderrLog := [] }).stderrLog } := by
  intro srcs
  induction srcs with
  | nil => intro items seen L; simp
  | cons s ss ih =>
      intro items seen L
      rw [List.foldl_cons, List.foldl_cons]
      rcases s with ⟨surl, slabel, ⟨sb, sentries⟩⟩
      rw [show ({ url := surl, label := slabel, parsed := { bozo := sb, entries := sentries } } : Source)
            = mkSource surl slabel sb sentries from rfl]
      rw [processSource_canon, processSource_canon]
      rcases processEntries now slabel sentries
          { items := items, seen := seen, stderrLog := [] } with ⟨ei, esn, el⟩
      simp only
      rw [ih ei esn, ih ei esn ([] ++ (if sb = true then [warnLine surl] else []))]
      rcases (List.foldl (processSource now)
          ({ items := ei, seen := esn, stderrLog := [] } : AggState) ss) with ⟨qi, qs, ql⟩
      simp [List.append_assoc]

/-- C9: a bozo (malformed) feed does not abort the run: the items and
seen-set computed are the same as if the feed were well-formed (its
extracted entries are processed normally and all remaining sources are
still processed), the final output is unchanged, and a warning line
naming the offending URL is written to the stderr log (which the output
document never sees). -/
theorem C9_bozo (now : Int) (pre post : List Source) (url label : String)
    (entries : List Entry) :
    (aggregate now (pre ++ mkSource url label true entries :: post)).items
      = (aggregate now (pre ++ mkSource url label false entries :: post)).items
    ∧ warnLine url
        ∈ (aggregate now (pre ++ mkSource url label true entries :: post)).stderrLog
    ∧ finalItems now (pre ++ mkSource url label true entries :: post)
      = finalItems now (pre ++ mkSource url label false entries :: post) := by
  unfold finalItems pySortDesc retainItems aggregate
  rw [List.foldl_append, List.foldl_append, List.foldl_cons, List.foldl_cons]
  rcases (List.foldl (processSource now)
      ({ items := [], seen := [], stderrLog := [] } : AggState) pre) with ⟨i0, s0, L0⟩
  rw [processSource_canon, processSource_canon]
  rcases (processEntries now label entries
      ({ items := i0, seen := s0, stderrLog := [] } : AggState)) with ⟨ei, esn, el⟩
  simp only [if_true, ite_true, Bool.false_eq_true, if_false, ite_false, List.append_nil]
  rw [aggLoop_canon now post ei esn (L0 ++ [warnLine url]), aggLoop_canon now post ei esn L0]
  rcases (List.foldl (processSource now)
      ({ items := ei, seen := esn, stderrLog := [] } : AggState) post) with ⟨qi, qs, ql⟩
  refine ⟨rfl, ?_, rfl⟩
  simp

/-! ## The written document (C4, C7)

The two document-level claims are settled through character-level facts
about the serialized body: it is a single element (it begins with the
root start tag and ends with the root end tag), and the two-character
sequence `<?` — the opener of an XML declaration or of any processing
instruction — occurs nowhere in it, because every `<` the serializer
emits introduces a tag whose name contains neither `<` nor `?`, and
escaping removes `<` from all character data and attribute values. -/

theorem data_join : ∀ l : List String, (String.join l).data = (l.map String.data).flatten := by
  have key : ∀ (l : List String) (s : String),
      (l.foldl (· ++ ·) s).data = s.data ++ (l.map String.data).flatten := by
    intro l
    induction l with
    | nil => intro s; simp
    | cons a l ih =>
        intro s
        simp [List.foldl_cons, ih, String.data_append]
  intro l
  have h := key l ""
  simpa [String.join] using h

theorem escCdataChar_no_lt (c : Char) : ∀ d ∈ escCdataChar c, d ≠ '<' := by
  intro d hd
  unfold escCdataChar at hd
  split at hd
  · rw [show ("&amp;" : String).data = ['&', 'a', 'm', 'p', ';'] from rfl] at hd
    fin_cases hd <;> decide
  · split at hd
    · rw [show ("&lt;" : String).data = ['&', 'l', 't', ';'] from rfl] at hd
      fin_cases hd <;> decide
    · split at hd
      · rw [show ("&gt;" : String).data = ['&', 'g', 't', ';'] from rfl] at hd
        fin_cases hd <;> decide
      · fin_cases hd
        assumption

theorem escAttribChar_no_lt (c : Char) : ∀ d ∈ escAttribChar c, d ≠ '<' := by
  intro d hd
  unfold escAttribChar at hd
  split at hd
  · rw [show ("&amp;" : String).data = ['&', 'a', 'm', 'p', ';'] from rfl] at hd
    fin_cases hd <;> decide
  · split at hd
    · rw [show ("&lt;" : String).data = ['&', 'l', 't', ';'] from rfl] at hd
      fin_cases hd <;> decide
    · split at hd
      · rw [show ("&gt;" : String).data = ['&', 'g', 't', ';'] from rfl] at hd
        fin_cases hd <;> decide
      · split at hd
        · rw [show ("&quot;" : String).data = ['&', 'q', 'u', 'o', 't', ';'] from rfl] at hd
          fin_cases hd <;> decide
        · split at hd
          · rw [show ("&#13;" : String).data = ['&', '#', '1', '3', ';'] from rfl] at hd
            fin_cases hd <;> decide
          · split at hd
            · rw [show ("&#10;" : String).data = ['&', '#', '1', '0', ';'] from rfl] at hd
              fin_cases hd <;> decide
            · split at hd
              · rw [show ("&#09;" : String).data = ['&', '#', '0', '9', ';'] from rfl] at hd
                fin_cases hd <;> decide
              · fin_cases hd
                assumption

theorem escape_cdata_no_lt (s : String) : ∀ d ∈ (escape_cdata s).data, d ≠ '<' := by
  intro d hd
  have hd' : d ∈ s.data.flatMap escCdataChar := hd
  rw [List.mem_flatMap] at hd'
  obtain ⟨a, _, ha⟩ := hd'
  exact escCdataChar_no_lt a d ha

theorem escape_attrib_no_lt (s : String) : ∀ d ∈ (escape_attrib s).data, d ≠ '<' := by
  intro d hd
  have hd' : d ∈ s.data.flatMap escAttribChar := hd
  rw [List.mem_flatMap] at hd'
  obtain ⟨a, _, ha⟩ := hd'
  exact escAttribChar_no_lt a d ha

/-- No `<?` pair anywhere in the character list. -/
def noPI (l : List Char) : Prop :=
  List.Chain' (fun a b => ¬(a = '<' ∧ b = '?')) l

/-- A serializer output block: no `<?` inside, no leading `?` (safe
after a block ending in `<`—which never happens—and, more to the point,
safe anywhere), no trailing `<`. -/
def PiSafe (l : List Char) : Prop :=
  noPI l ∧ l.head? ≠ some '?' ∧ l.getLast? ≠ some '<'

theorem piSafe_nil : PiSafe [] :=
  ⟨List.chain'_nil, by simp, by simp⟩

theorem noPI_of_no_lt : ∀ l : List Char, (∀ c ∈ l, c ≠ '<') → noPI l := by
  intro l
  induction l with
  | nil => intro _; exact List.chain'_nil
  | cons a l ih =>
      intro h
      rcases l with _ | ⟨b, l'⟩
      · exact List.chain'_singleton a
      · refine List.chain'_cons.mpr ⟨fun hab => h a (by simp) hab.1, ?_⟩
        exact ih fun c hc => h c (by simp [List.mem_cons] at hc ⊢; tauto)

theorem mem_of_getLast? : ∀ {l : List Char} {c : Char}, l.getLast? = some c → c ∈ l := by
  intro l
  induction l with
  | nil => intro c h; cases h
  | cons a l ih =>
      intro c h
      rcases l with _ | ⟨b, l'⟩
      · simp at h
        simp [h]
      · rw [List.getLast?_cons_cons] at h
        exact List.mem_cons_of_mem _ (ih h)

theorem piSafe_append {a b : List Char} (ha : PiSafe a) (hb : PiSafe b) :
    PiSafe (a ++ b) := by
  obtain ⟨ca, heada, lasta⟩ := ha
  obtain ⟨cb, headb, lastb⟩ := hb
  refine ⟨?_, ?_, ?_⟩
  · rw [noPI, List.chain'_append]
    refine ⟨ca, cb, ?_⟩
    intro x hx y _hy hxy
    rw [Option.mem_def] at hx
    exact lasta (hxy.1 ▸ hx)
  · rcases a with _ | ⟨x, a'⟩
    · simpa using headb
    · simpa using heada
  · rcases b with _ | ⟨y, b'⟩
    · simpa using lasta
    · rw [List.getLast?_append_of_ne_nil _ (by simp)]
      exact lastb

/-- The workhorse block: a `<` followed by characters none of which is
`<`, not starting with `?`. -/
theorem piSafe_lt_block {rest : List Char} (hne : rest ≠ [])
    (hno : ∀ c ∈ rest, c ≠ '<') (hh : rest.head? ≠ some '?') :
    PiSafe ('<' :: rest) := by
  refine ⟨?_, by simp, ?_⟩
  · rw [noPI, List.chain'_cons']
    refine ⟨?_, noPI_of_no_lt rest hno⟩
    intro y hy hxy
    rw [Option.mem_def] at hy
    exact hh (hxy.2 ▸ hy)
  · have : ('<' :: rest).getLast? = rest.getLast? := by
      rcases rest with _ | ⟨r, rest'⟩
      · exact absurd rfl hne
      · exact List.getLast?_cons_cons ..
    rw [this]
    intro hc
    exact hno '<' (mem_of_getLast? hc) rfl

theorem piSafe_join_data : ∀ ds : List (List Char), (∀ d ∈ ds, PiSafe d) → PiSafe ds.flatten := by
  intro ds
  induction ds with
  | nil => intro _; exact piSafe_nil
  | cons d ds ih =>
      intro h
      rw [List.flatten_cons]
      exact piSafe_append (h d (by simp)) (ih fun x hx => h x (by simp [hx]))

theorem head?_ne_of_all {l : List Char} (h : ∀ c ∈ l, c ≠ '?') : l.head? ≠ some '?' := by
  rcases l with _ | ⟨a, l⟩
  · simp
  · simp only [List.head?_cons, ne_eq, Option.some.injEq]
    exact h a (by simp)

/-- A qualified name fit for emission: non-empty, containing neither
`<` nor `?`. -/
def cleanName (s : String) : Prop :=
  s.data ≠ [] ∧ ∀ c ∈ s.data, c ≠ '<' ∧ c ≠ '?'

instance (s : String) : Decidable (cleanName s) := by
  unfold cleanName
  infer_instance

/-- Every tag and attribute key of the tree (to depth `fuel`) serializes
to a clean qualified name under `q`. -/
def elemPiSafe (q : String → String) : Nat → XmlElem → Prop
  | 0, _ => True
  | fuel + 1, el =>
      cleanName (q el.tag)
      ∧ (∀ kv ∈ el.attrib, cleanName (q kv.1))
      ∧ ∀ c ∈ el.children, elemPiSafe q fuel c

/-- The characters of the serialized attribute list contain no `<`. -/
theorem attrs_no_lt (q : String → String) (attrib : List (String × String))
    (hattr : ∀ kv ∈ attrib, cleanName (q kv.1)) :
    ∀ c ∈ (String.join (attrib.map fun kv =>
        " " ++ q kv.1 ++ "=\"" ++ escape_attrib kv.2 ++ "\"")).data, c ≠ '<' := by
  intro c hc
  rw [data_join, List.map_map] at hc
  rw [List.mem_flatten] at hc
  obtain ⟨d, hd, hcd⟩ := hc
  rw [List.mem_map] at hd
  obtain ⟨kv, hkv, rfl⟩ := hd
  simp only [Function.comp_apply, String.data_append] at hcd
  rcases List.mem_append.mp hcd with h | h
  · rcases List.mem_append.mp h with h | h
    · rcases List.mem_append.mp h with h | h
      · rcases List.mem_append.mp h with h | h
        · fin_cases h; decide
        · exact ((hattr kv hkv).2 c h).1
      · fin_cases h <;> decide
    · exact escape_attrib_no_lt kv.2 c h
  · fin_cases h; decide

/-- The serializer only emits `<` introducing a clean tag name: its
whole output is a `PiSafe` block. -/
theorem serializeElem_piSafe (q : String → String) :
    ∀ (fuel : Nat) (nsDecls : String) (el : XmlElem),
      elemPiSafe q fuel el →
      (∀ c ∈ nsDecls.data, c ≠ '<') →
      PiSafe (serializeElem q fuel nsDecls el).data := by
  intro fuel
  induction fuel with
  | zero => intro nsDecls el _ _; exact piSafe_nil
  | succ fuel ih =>
      intro nsDecls el hok hns
      rcases el with ⟨tag, attrib, text, children⟩
      obtain ⟨htag, hattr, hch⟩ := hok
      have hqne : (q tag).data ≠ [] := htag.1
      have hqno : ∀ c ∈ (q tag).data, c ≠ '<' := fun c hc => (htag.2 c hc).1
      have hqnq : ∀ c ∈ (q tag).data, c ≠ '?' := fun c hc => (htag.2 c hc).2
      have hattrs := attrs_no_lt q attrib hattr
      rw [serializeElem]
      split
      · -- `<tag …>text` block, children, `</tag>` block
        rw [String.data_append, String.data_append]
        refine piSafe_append (piSafe_append ?_ ?_) ?_
        · -- the start-tag block with attributes and text
          have hdata : ("<" ++ q tag ++ nsDecls
              ++ String.join (attrib.map fun kv =>
                  " " ++ q kv.1 ++ "=\"" ++ escape_attrib kv.2 ++ "\"")
              ++ ">"
              ++ (if pyTruthyText text then escape_cdata (text.getD "") else "")).data
              = '<' :: ((q tag).data ++ (nsDecls.data
                ++ ((String.join (attrib.map fun kv =>
                      " " ++ q kv.1 ++ "=\"" ++ escape_attrib kv.2 ++ "\"")).data
                  ++ ('>' :: (if pyTruthyText text then escape_cdata (text.getD "")
                      else "").data)))) := by
            simp [String.data_append, List.append_assoc]
          rw [hdata]
          refine piSafe_lt_block (by simp [hqne]) ?_ ?_
          · intro c hc
            rcases List.mem_append.mp hc with h | h
            · exact hqno c h
            rcases List.mem_append.mp h with h | h
            · exact hns c h
            rcases List.mem_append.mp h with h | h
            · exact hattrs c h
            rcases List.mem_cons.mp h with rfl | h
            · decide
            · split at h
              · exact escape_cdata_no_lt _ c h
              · cases h
          · rw [List.head?_append_of_ne_nil _ hqne]
            exact head?_ne_of_all hqnq
        · -- the serialized children
          rw [data_join, List.map_map]
          refine piSafe_join_data _ ?_
          intro d hd
          rw [List.mem_map] at hd
          obtain ⟨c, hcmem, rfl⟩ := hd
          exact ih "" c (hch c hcmem) (by simp)
        · -- the end tag
          have hdata : ("</" ++ q tag ++ ">").data
              = '<' :: ('/' :: ((q tag).data ++ ['>'])) := by
            simp [String.data_append]
          rw [hdata]
          refine piSafe_lt_block (by simp) ?_ (by simp)
          intro c hc
          rcases List.mem_cons.mp hc with rfl | hc
          · decide
          rcases List.mem_append.mp hc with h | h
          · exact hqno c h
          · fin_cases h; decide
      · -- self-closing `<tag … />`
        have hdata : ("<" ++ q tag ++ nsDecls
            ++ String.join (attrib.map fun kv =>
                " " ++ q kv.1 ++ "=\"" ++ escape_attrib kv.2 ++ "\"")
            ++ " />").data
            = '<' :: ((q tag).data ++ (nsDecls.data
              ++ ((String.join (attrib.map fun kv =>
                    " " ++ q kv.1 ++ "=\"" ++ escape_attrib kv.2 ++ "\"")).data
                ++ [' ', '/', '>']))) := by
          simp [String.data_append, List.append_assoc]
        rw [hdata]
        refine piSafe_lt_block (by simp [hqne]) ?_ ?_
        · intro c hc
          rcases List.mem_append.mp hc with h | h
          · exact hqno c h
          rcases List.mem_append.mp h with h | h
          · exact hns c h
          rcases List.mem_append.mp h with h | h
          · exact hattrs c h
          · fin_cases h <;> decide
        · rw [List.head?_append_of_ne_nil _ hqne]
          exact head?_ne_of_all hqnq

theorem serializeElem_shape (q : String → String) (fuel : Nat) (nsDecls : String)
    (el : XmlElem) (hch : el.children ≠ []) (htext : el.text = none) :
    ∃ mid : List Char,
      (serializeElem q (fuel + 1) nsDecls el).data
        = ('<' :: ((q el.tag).data ++ mid))
          ++ ('<' :: '/' :: ((q el.tag).data ++ ['>'])) := by
  rcases el with ⟨tag, attrib, text, children⟩
  simp only at htext hch ⊢
  subst htext
  have hcond : (pyTruthyText none || !children.isEmpty) = true := by
    rcases children with _ | ⟨c, cs⟩
    · exact absurd rfl hch
    · rfl
  rw [serializeElem, if_pos hcond]
  refine ⟨nsDecls.data
      ++ ((String.join (attrib.map fun kv =>
            " " ++ q kv.1 ++ "=\"" ++ escape_attrib kv.2 ++ "\"")).data
        ++ ('>' :: (String.join (children.map (serializeElem q fuel ""))).data)), ?_⟩
  simp [String.data_append, List.append_assoc, pyTruthyText]

/-- A tag without a namespace brace serializes as itself. -/
theorem qnameOf_plain (uris : List String) (tag : String) (h : nsOfTag tag = none) :
    qnameOf uris tag = tag := by
  unfold qnameOf
  rw [h]

/-- In the documents this script builds, the namespace table is empty or
holds just the MRSS URI, and in both cases the MRSS content tag
serializes as `ns0:content`. -/
theorem qnameOf_mrss (uris : List String) (h : uris = [] ∨ uris = [MRSS_NS]) :
    qnameOf uris mrssContentTag = "ns0:content" := by
  rcases h with rfl | rfl <;> rfl

theorem clean_qname_plain (uris : List String) (tag : String)
    (hns : nsOfTag tag = none) (hclean : cleanName tag) :
    cleanName (qnameOf uris tag) := by
  rw [qnameOf_plain _ _ hns]
  exact hclean

theorem leaf_piSafe (q : String → String) (tag : String) (attrib : List (String × String))
    (text : Option String) (htag : cleanName (q tag))
    (hattr : ∀ kv ∈ attrib, cleanName (q kv.1)) :
    ∀ fuel, elemPiSafe q fuel ⟨tag, attrib, text, []⟩ := by
  intro fuel
  cases fuel
  · trivial
  · exact ⟨htag, hattr, by simp⟩

theorem itemElem_piSafe (uris : List String) (h : uris = [] ∨ uris = [MRSS_NS])
    (fmt : PyDateTime → String) (it : NormalizedItem) :
    ∀ fuel, elemPiSafe (qnameOf uris) (fuel + 1) (itemElem fmt it) := by
  intro fuel
  refine ⟨clean_qname_plain uris "item" rfl (by decide), by simp [itemElem], ?_⟩
  intro c hc
  simp only [itemElem, List.mem_cons, List.not_mem_nil, or_false] at hc
  rcases hc with rfl | rfl | rfl | rfl | rfl | rfl | rfl | rfl
  · exact leaf_piSafe _ _ _ _ (clean_qname_plain uris "title" rfl (by decide)) (by simp) fuel
  · exact leaf_piSafe _ _ _ _ (clean_qname_plain uris "link" rfl (by decide)) (by simp) fuel
  · exact leaf_piSafe _ _ _ _ (clean_qname_plain uris "description" rfl (by decide)) (by simp) fuel
  · exact leaf_piSafe _ _ _ _ (clean_qname_plain uris "guid" rfl (by decide)) (by simp) fuel
  · exact leaf_piSafe _ _ _ _ (clean_qname_plain uris "pubDate" rfl (by decide)) (by simp) fuel
  · exact leaf_piSafe _ _ _ _ (clean_qname_plain uris "category" rfl (by decide)) (by simp) fuel
  · refine leaf_piSafe _ _ _ _ (clean_qname_plain uris "enclosure" rfl (by decide)) ?_ fuel
    intro kv hkv
    fin_cases hkv
    · exact clean_qname_plain uris "url" rfl (by decide)
    · exact clean_qname_plain uris "length" rfl (by decide)
    · exact clean_qname_plain uris "type" rfl (by decide)
  · refine leaf_piSafe _ _ _ _ ?_ ?_ fuel
    · rw [qnameOf_mrss uris h]
      decide
    · intro kv hkv
      fin_cases hkv
      · exact clean_qname_plain uris "url" rfl (by decide)
      · exact clean_qname_plain uris "medium" rfl (by decide)

theorem channelElem_piSafe (uris : List String) (h : uris = [] ∨ uris = [MRSS_NS])
    (fmt : PyDateTime → String) (now : Int) (items : List NormalizedItem) :
    ∀ fuel, elemPiSafe (qnameOf uris) (fuel + 1 + 1) (channelElem fmt now items) := by
  intro fuel
  refine ⟨clean_qname_plain uris "channel" rfl (by decide), by simp [channelElem], ?_⟩
  intro c hc
  simp only [channelElem] at hc
  rcases List.mem_append.mp hc with h5 | hmap
  · simp only [textElem, List.mem_cons, List.not_mem_nil, or_false] at h5
    rcases h5 with rfl | rfl | rfl | rfl | rfl
    · exact leaf_piSafe _ _ _ _ (clean_qname_plain uris "title" rfl (by decide)) (by simp) _
    · exact leaf_piSafe _ _ _ _ (clean_qname_plain uris "link" rfl (by decide)) (by simp) _
    · exact leaf_piSafe _ _ _ _ (clean_qname_plain uris "description" rfl (by decide)) (by simp) _
    · exact leaf_piSafe _ _ _ _ (clean_qname_plain uris "language" rfl (by decide)) (by simp) _
    · exact leaf_piSafe _ _ _ _ (clean_qname_plain uris "lastBuildDate" rfl (by decide)) (by simp) _
  · obtain ⟨it, _, rfl⟩ := List.mem_map.mp hmap
    exact itemElem_piSafe uris h fmt it fuel

theorem buildRss_piSafe (uris : List String) (h : uris = [] ∨ uris = [MRSS_NS])
    (fmt : PyDateTime → String) (now : Int) (items : List NormalizedItem) :
    ∀ fuel, elemPiSafe (qnameOf uris) (fuel + 1 + 1 + 1) (buildRss fmt now items) := by
  intro fuel
  refine ⟨clean_qname_plain uris "rss" rfl (by decide), ?_, ?_⟩
  · intro kv hkv
    simp only [buildRss, List.mem_cons, List.not_mem_nil, or_false] at hkv
    rcases hkv with rfl | rfl
    · exact clean_qname_plain uris "version" rfl (by decide)
    · exact clean_qname_plain uris "xmlns:media" rfl (by decide)
  · intro c hc
    simp only [buildRss, List.mem_cons, List.not_mem_nil, or_false] at hc
    subst hc
    exact channelElem_piSafe uris h fmt now items fuel

theorem itemTags_filter (fmt : PyDateTime → String) (f : Nat) (it : NormalizedItem) :
    (collectTags (f + 1 + 1) (itemElem fmt it)).filterMap nsOfTag = [MRSS_NS] := by
  simp only [collectTags, itemElem, textElem, List.map_nil, List.flatMap_cons,
    List.flatMap_nil, List.append_nil, List.nil_append]
  rfl

theorem flatMap_items_filter (fmt : PyDateTime → String) (f : Nat) :
    ∀ items : List NormalizedItem,
      ((items.map (itemElem fmt)).flatMap (collectTags (f + 1 + 1))).filterMap nsOfTag
        = items.map fun _ => MRSS_NS := by
  intro items
  induction items with
  | nil => rfl
  | cons it its ih =>
      rw [List.map_cons, List.flatMap_cons, List.filterMap_append, itemTags_filter, ih,
        List.map_cons]
      rfl

theorem collect_filter_buildRss (fmt : PyDateTime → String) (now : Int) (f : Nat)
    (items : List NormalizedItem) :
    (collectTags (f + 1 + 1 + 1 + 1) (buildRss fmt now items)).filterMap nsOfTag
      = items.map fun _ => MRSS_NS := by
  have hroot : collectTags (f + 1 + 1 + 1 + 1) (buildRss fmt now items)
      = ["rss", "version", "xmlns:media", "channel", "title", "link", "description",
          "language", "lastBuildDate"]
        ++ (items.map (itemElem fmt)).flatMap (collectTags (f + 1 + 1)) := by
    simp [collectTags, buildRss, channelElem, textElem]
  rw [hroot, List.filterMap_append, flatMap_items_filter]
  rfl

theorem nsUrisOf_buildRss (fmt : PyDateTime → String) (now : Int)
    (items : List NormalizedItem) :
    nsUrisOf (buildRss fmt now items) = []
    ∨ nsUrisOf (buildRss fmt now items) = [MRSS_NS] := by
  unfold nsUrisOf
  rw [show XML_FUEL = 12 + 1 + 1 + 1 + 1 from rfl, collect_filter_buildRss]
  rcases items with _ | ⟨a, rest⟩
  · left; rfl
  · right
    rw [List.map_cons, dedupFirstFrom, if_neg (by simp)]
    have htail : ∀ l : List NormalizedItem,
        dedupFirstFrom [MRSS_NS] (l.map fun _ => MRSS_NS) = [] := by
      intro l
      induction l with
      | nil => rfl
      | cons b bs ihb =>
          rw [List.map_cons, dedupFirstFrom, if_pos (by simp)]
          exact ihb
    rw [htail]

theorem nsDeclsOf_no_lt (uris : List String) (h : uris = [] ∨ uris = [MRSS_NS]) :
    ∀ c ∈ (nsDeclsOf uris).data, c ≠ '<' := by
  rcases h with rfl | rfl <;> decide

theorem pyLstrip_data_lt {s : String} {l : List Char} (h : s.data = '<' :: l) :
    pyLstrip s = s := by
  rcases s with ⟨d⟩
  have hd : d = '<' :: l := h
  subst hd
  unfold pyLstrip
  rw [List.dropWhile_cons, if_neg (by decide)]

theorem tostringEt_buildRss_shape (fmt : PyDateTime → String) (now : Int)
    (items : List NormalizedItem) :
    ∃ mid : List Char,
      (tostringEt (buildRss fmt now items)).data
        = ('<' :: ("rss".data ++ mid)) ++ "</rss>".data := by
  unfold tostringEt
  rw [show XML_FUEL = 15 + 1 from rfl]
  obtain ⟨mid, hmid⟩ := serializeElem_shape (qnameOf (nsUrisOf (buildRss fmt now items))) 15
    (nsDeclsOf (nsUrisOf (buildRss fmt now items))) (buildRss fmt now items)
    (by simp [buildRss]) (by simp [buildRss])
  have hq : qnameOf (nsUrisOf (buildRss fmt now items)) (buildRss fmt now items).tag
      = "rss" := qnameOf_plain _ _ rfl
  rw [hq] at hmid
  exact ⟨mid, hmid⟩

theorem pyLstrip_tostring (fmt : PyDateTime → String) (now : Int)
    (items : List NormalizedItem) :
    pyLstrip (tostringEt (buildRss fmt now items)) = tostringEt (buildRss fmt now items) := by
  obtain ⟨mid, hmid⟩ := tostringEt_buildRss_shape fmt now items
  exact pyLstrip_data_lt (by rw [hmid]; rfl)

theorem writtenFile_data (fmt : PyDateTime → String) (now : Int) (sources : List Source) :
    (writtenFile fmt now sources).data
      = XML_DECLARATION.data
        ++ (tostringEt (buildRss fmt now (finalItems now sources))).data := by
  unfold writtenFile
  rw [pyLstrip_tostring, String.data_append]

/-- C4: the pipeline writes exactly the uppercase, double-quoted XML
declaration line followed by the serialized body; the body is a single
element — it starts with the root start tag `<rss` and ends with the
root end tag `</rss>` — and contains no `<?` anywhere, so it carries no
additional XML declaration (on CPython ≥ 3.8, `ET.tostring` with
`encoding="utf-8"` emits none of its own). -/
theorem C4_xml_declaration (fmt : PyDateTime → String) (now : Int) (sources : List Source) :
    ∃ body : String,
      writtenFile fmt now sources
        = "<?xml version=\"1.0\" encoding=\"UTF-8\"?>\n" ++ body
      ∧ "<rss".data <+: body.data
      ∧ "</rss>".data <:+ body.data
      ∧ noPI body.data := by
  obtain ⟨mid, hmid⟩ := tostringEt_buildRss_shape fmt now (finalItems now sources)
  refine ⟨tostringEt (buildRss fmt now (finalItems now sources)), ?_, ?_, ?_, ?_⟩
  · unfold writtenFile
    rw [pyLstrip_tostring]
    rfl
  · rw [hmid]
    exact ⟨mid ++ "</rss>".data, by simp⟩
  · rw [hmid]
    exact ⟨'<' :: ("rss".data ++ mid), rfl⟩
  · have huris := nsUrisOf_buildRss fmt now (finalItems now sources)
    have hsafe := serializeElem_piSafe (qnameOf (nsUrisOf (buildRss fmt now (finalItems now sources))))
      XML_FUEL (nsDeclsOf (nsUrisOf (buildRss fmt now (finalItems now sources))))
      (buildRss fmt now (finalItems now sources))
      (buildRss_piSafe _ huris fmt now (finalItems now sources) 13)
      (nsDeclsOf_no_lt _ huris)
    exact hsafe.1

/-- A constant date formatter for concrete runs. -/
def fmtConst : PyDateTime → String := fun _ => "Thu, 01 Jan 1970 01:00:00 +0100"

/-- C7 counterexample: on a concrete run (no sources), the written file
content ends with `>` (the root close tag), not with a newline
character. -/
theorem C7_counterexample :
    (writtenFile fmtConst 0 []).data.getLast? ≠ some '\n'
    ∧ (writtenFile fmtConst 0 []).data.getLast? = some '>' := by
  constructor <;> decide

/-- C7 (amended): the written file is not terminated by a newline: its
content always ends with the root close tag `</rss>`, whose last
character `>` is the last character of the file; the only newline the
write adds is the one terminating the declaration line. -/
theorem C7_no_trailing_newline (fmt : PyDateTime → String) (now : Int)
    (sources : List Source) :
    "</rss>".data <:+ (writtenFile fmt now sources).data
    ∧ (writtenFile fmt now sources).data.getLast? = some '>' := by
  obtain ⟨mid, hmid⟩ := tostringEt_buildRss_shape fmt now (finalItems now sources)
  have hdata : (writtenFile fmt now sources).data
      = XML_DECLARATION.data ++ (('<' :: ("rss".data ++ mid)) ++ "</rss>".data) := by
    rw [writtenFile_data, hmid]
  constructor
  · rw [hdata]
    exact ⟨XML_DECLARATION.data ++ ('<' :: ("rss".data ++ mid)), by simp [List.append_assoc]⟩
  · rw [hdata]
    rw [List.getLast?_append_of_ne_nil _ (by simp), List.getLast?_append_of_ne_nil _ (by decide)]
    rfl
